import Mathlib

/-!
Shallow embedding of `lightllm/models/llava/llava_visual.py` (class
`LlavaVisionModel`): the weight-loading strategies (`load_model`,
`load_hf_model`, `load_bin_model`), device placement (`cuda`), the
forward pass (`forward`) and the public entry point (`encode`).

External collaborators (the pretrained vision tower, the GELU kernel,
the image preprocessor together with the shared-memory read and the PIL
decode) are not code of this module; they enter as explicit function
parameters (`ExternEnv`).  Tensors are modelled as nested lists of `Int`
scalars carrying `dtype` and `device` tags; Python dicts keyed by weight
names become association lists with insert-or-overwrite.
-/

/-- Tensor element precision tag (`torch.float16` after `.half()`, etc.). -/
inductive DType
  | float16
  | float32
  deriving DecidableEq

/-- Device tag (`torch.device("cpu")` / `.cuda()`). -/
inductive Device
  | cpu
  | cuda
  deriving DecidableEq

/-- A stored tensor: raw numeric contents plus dtype and device tags.
Weight matrices use `data` as rows; 1-D tensors (biases) are read back
through `asVec`. -/
structure STensor where
  data : List (List Int)
  dtype : DType
  device : Device
  deriving DecidableEq

/-- `tensor.half()`: cast to float16, contents unchanged. -/
def STensor.half (t : STensor) : STensor :=
  { t with dtype := DType.float16 }

/-- `tensor.cuda()`: move to the accelerator, contents unchanged. -/
def STensor.cudaTo (t : STensor) : STensor :=
  { t with device := Device.cuda }

/-- View a stored tensor as a weight matrix. -/
def STensor.asMat (t : STensor) : List (List Int) :=
  t.data

/-- View a stored tensor as a 1-D tensor (a bias vector). -/
def STensor.asVec (t : STensor) : List Int :=
  t.data.flatten

/-- `a` starts with the pattern `pat` (character lists). -/
def charsStartWith : List Char → List Char → Bool
  | [], _ => true
  | _ :: _, [] => false
  | a :: pa, b :: lb => (a == b) && charsStartWith pa lb

/-- `pat` occurs somewhere inside `l` (character lists). -/
def charsHasInfix (pat : List Char) : List Char → Bool
  | [] => charsStartWith pat []
  | c :: t => charsStartWith pat (c :: t) || charsHasInfix pat t

/-- Python `pat in s` on strings: substring containment. -/
def strContainsSub (s pat : String) : Bool :=
  charsHasInfix pat.data s.data

/-- Python `s.endswith(suff)`. -/
def strEndsWith (s suff : String) : Bool :=
  charsStartWith suff.data (s.data.drop (s.data.length - suff.data.length))

/-- Association-list read of a Python dict keyed by weight name. -/
def lookupW : List (String × STensor) → String → Option STensor
  | [], _ => none
  | (k, v) :: rest, key => if k = key then some v else lookupW rest key

/-- `pw[k] = v` on a Python dict: overwrite in place or append. -/
def dictInsert : List (String × STensor) → String → STensor → List (String × STensor)
  | [], k, v => [(k, v)]
  | (k1, v1) :: rest, k, v =>
      if k1 = k then (k, v) :: rest else (k1, v1) :: dictInsert rest k v

/-- Key-presence test on the projector-weights dict (`assert k in pw`). -/
def hasKeyW (pw : List (String × STensor)) (k : String) : Bool :=
  (lookupW pw k).isSome

/-- The contents of `config.json` as far as this module reads them:
which keys are present, and the values the two loading paths extract.
`vision_feature_layer` / `vision_feature_select_strategy` stand for what
`AutoConfig.from_pretrained` exposes on the packaged checkpoint. -/
structure Config where
  keys : List String
  mm_vision_select_layer : Option Int
  mm_vision_select_feature : Option String
  vision_feature_layer : Int
  vision_feature_select_strategy : String
  deriving DecidableEq

/-- One weight file in the weight directory: its file name and the
key-to-tensor map its format exposes (`safe_open` for `.safetensors`,
`torch.load` for `.bin`). -/
structure WFile where
  name : String
  entries : List (String × STensor)
  deriving DecidableEq

/-- The weight directory (`os.listdir(weight_dir)`). -/
structure Disk where
  files : List WFile
  deriving DecidableEq

/-- The adapter's state after loading: mirrors the attributes
`load_model` and the two strategies set on `LlavaVisionModel`. -/
structure LlavaVisionModel where
  select_layer : Int
  select_feature : String
  projector_weights : List (String × STensor)
  tower_dtype : DType
  tower_device : Device
  tower_requires_grad : Bool
  device : Device
  deriving DecidableEq

/-- One safetensors key scan step of `load_hf_model`: keys containing
`multi_modal_projector.linear_1` / `linear_2` are renamed into the
canonical `model.mm_projector.{0,2}` scheme and stored halved. -/
def hfCollectKey (pw : List (String × STensor)) (k : String) (t : STensor) :
    List (String × STensor) :=
  let pw1 :=
    if strContainsSub k "multi_modal_projector.linear_1" then
      dictInsert pw (k.replace "multi_modal_projector.linear_1" "model.mm_projector.0") t.half
    else pw
  if strContainsSub k "multi_modal_projector.linear_2" then
    dictInsert pw1 (k.replace "multi_modal_projector.linear_2" "model.mm_projector.2") t.half
  else pw1

/-- `load_hf_model`: packaged end-to-end checkpoint.  The tower comes
from `LlavaForConditionalGeneration.from_pretrained(torch_dtype=float16)`;
the projector weights are scanned out of every `.safetensors` file. -/
def load_hf_model (cfg : Config) (disk : Disk) : LlavaVisionModel :=
  { select_layer := cfg.vision_feature_layer
    select_feature := cfg.vision_feature_select_strategy
    projector_weights :=
      (disk.files.filter (fun f => strEndsWith f.name ".safetensors")).foldl
        (fun pw f => f.entries.foldl (fun pw kt => hfCollectKey pw kt.1 kt.2) pw) []
    tower_dtype := DType.float16
    tower_device := Device.cpu
    tower_requires_grad := true
    device := Device.cpu }

/-- `load_bin_model`: loose CLIP plus separate projector.  Defaults
`mm_vision_select_layer = -2`, `mm_vision_select_feature = "patch"`;
every `.bin` file is scanned for keys containing `model.mm_projector`,
collected verbatim and halved. -/
def load_bin_model (cfg : Config) (disk : Disk) : LlavaVisionModel :=
  { select_layer := cfg.mm_vision_select_layer.getD (-2)
    select_feature := cfg.mm_vision_select_feature.getD "patch"
    projector_weights :=
      (disk.files.filter (fun f => strEndsWith f.name ".bin")).foldl
        (fun pw f => f.entries.foldl
          (fun pw kt =>
            if strContainsSub kt.1 "model.mm_projector" then
              dictInsert pw kt.1 kt.2.half
            else pw) pw) []
    tower_dtype := DType.float16
    tower_device := Device.cpu
    tower_requires_grad := true
    device := Device.cpu }

/-- The two mutually exclusive loading strategies of `load_model`. -/
inductive Strategy
  | hf
  | bin
  deriving DecidableEq

/-- The strategy dispatch of `load_model`: packaged (HF) exactly when
`config.json` contains the key `"text_config"`, loose (bin) otherwise. -/
def chooseStrategy (cfg : Config) : Strategy :=
  if "text_config" ∈ cfg.keys then Strategy.hf else Strategy.bin

/-- The adapter state after the chosen strategy ran, before the
projector-key asserts of `load_model`. -/
def loadStrategyState (cfg : Config) (disk : Disk) : LlavaVisionModel :=
  match chooseStrategy cfg with
  | Strategy.hf => load_hf_model cfg disk
  | Strategy.bin => load_bin_model cfg disk

/-- The four canonical projector keys `load_model` asserts. -/
def projKeys : List String :=
  ["model.mm_projector.0.weight", "model.mm_projector.0.bias",
   "model.mm_projector.2.weight", "model.mm_projector.2.bias"]

/-- `load_model`: run the strategy chosen from the config, freeze the
tower (`requires_grad_(False)`), set the cpu device, then assert the
four canonical projector keys; a failed assert aborts initialization. -/
def load_model (cfg : Config) (disk : Disk) : Except String LlavaVisionModel :=
  let st0 := loadStrategyState cfg disk
  let st : LlavaVisionModel := { st0 with tower_requires_grad := false, device := Device.cpu }
  if hasKeyW st.projector_weights "model.mm_projector.0.weight" = false then
    Except.error "AssertionError: model.mm_projector.0.weight"
  else if hasKeyW st.projector_weights "model.mm_projector.0.bias" = false then
    Except.error "AssertionError: model.mm_projector.0.bias"
  else if hasKeyW st.projector_weights "model.mm_projector.2.weight" = false then
    Except.error "AssertionError: model.mm_projector.2.weight"
  else if hasKeyW st.projector_weights "model.mm_projector.2.bias" = false then
    Except.error "AssertionError: model.mm_projector.2.bias"
  else Except.ok st

/-- `Except.isOk` spelled out for this module's loader result. -/
def exceptIsOk : Except String LlavaVisionModel → Bool
  | Except.ok _ => true
  | Except.error _ => false

/-- All four canonical projector keys are present in the dict. -/
def fourKeysPresent (pw : List (String × STensor)) : Prop :=
  ∀ k ∈ projKeys, hasKeyW pw k = true

/-- Every tensor stored in the dict is tagged float16. -/
def AllHalf (pw : List (String × STensor)) : Prop :=
  ∀ kv ∈ pw, kv.2.dtype = DType.float16

/-- `cuda()`: move the tower and every projector tensor to the
accelerator. -/
def LlavaVisionModel.cuda (m : LlavaVisionModel) : LlavaVisionModel :=
  { m with
    tower_device := Device.cuda
    projector_weights := m.projector_weights.map (fun kv => (kv.1, kv.2.cudaTo)) }

/-- A token/feature vector (one row of a 2-D tensor). -/
abbrev Vec := List Int

/-- A 2-D tensor: sequence of rows. -/
abbrev Mat := List Vec

/-- A 3-D tensor, batch of 2-D tensors (batch × seq × feat). -/
abbrev Batch3 := List Mat

/-- One preprocessed image tile, a (channels × height × width) tensor. -/
abbrev Tile := List Mat

/-- Python sequence indexing with negative-index support: a negative
index is offset by the length, and an index out of `[0, len)` after the
offset is an `IndexError` (`none`). -/
def pyIndex {α : Type} (l : List α) (i : Int) : Option α :=
  let j : Int := if i < 0 then i + l.length else i
  if j < 0 then none else l[j.toNat]?

/-- `x[:, 1:]` guarded by the mode test of `forward`: in `"patch"` or
`"default"` mode drop the first token of every batch element along the
sequence dimension, otherwise keep the tensor unchanged. -/
def selectFeatures (feat : String) (h : Batch3) : Batch3 :=
  if feat = "patch" ∨ feat = "default" then h.map (fun row => row.drop 1) else h

/-- Dot product of two equally long rows. -/
def dotI (a b : Vec) : Int :=
  (List.zipWith (fun x y => x * y) a b).sum

/-- `F.linear(x, weight, bias)` on one input row: `weight ⬝ x + bias`. -/
def linearRow (w : Mat) (b : Vec) (x : Vec) : Vec :=
  List.zipWith (fun wr br => dotI wr x + br) w b

/-- The projector applied to one token vector: linear layer 0, the GELU
nonlinearity `g` (an external numeric kernel), then linear layer 2. -/
def mmProject (g : Int → Int) (w0 : Mat) (b0 : Vec) (w2 : Mat) (b2 : Vec) (x : Vec) : Vec :=
  linearRow w2 b2 ((linearRow w0 b0 x).map g)

/-- Structural recursion behind `viewChunks`; the fuel starts at the row
count, enough for every chunk of positive length. -/
def viewChunksAux (L : Nat) : Nat → List Vec → List Mat
  | 0, _ => []
  | _ + 1, [] => []
  | fuel + 1, r :: rs => ((r :: rs).take L) :: viewChunksAux L fuel ((r :: rs).drop L)

/-- `x.view(B, L, -1)` on a flat list of `B * L` rows: regroup into
chunks of `L` rows. -/
def viewChunks (L : Nat) (rows : List Vec) : List Mat :=
  if L = 0 then [] else viewChunksAux L rows.length rows

/-- The external collaborators of the module: `pixels` composes the
shared-memory read, the PIL RGB decode and `image_processor.preprocess`
(uuid to the list of preprocessed tiles); `tower` is the pretrained
vision tower returning the stack of per-layer hidden states for a batch
of tiles; `g` is the scalar GELU kernel. -/
structure ExternEnv where
  pixels : Nat → List Tile
  tower : List Tile → List Batch3
  g : Int → Int

/-- `forward`: run the tower with all hidden states, select the layer at
`select_layer` (Python indexing), apply the feature-selection slice,
flatten batch and sequence (`view(-1, N)`), project every row through
the two projector linears, and regroup (`view(B, L, -1)`).  `none`
models the framework errors (bad layer index, missing projector key). -/
def forward (env : ExternEnv) (m : LlavaVisionModel) (x : List Tile) : Option Batch3 :=
  match pyIndex (env.tower x) m.select_layer with
  | none => none
  | some h0 =>
    let hsel := selectFeatures m.select_feature h0
    let L := (hsel.headD []).length
    match lookupW m.projector_weights "model.mm_projector.0.weight",
          lookupW m.projector_weights "model.mm_projector.0.bias",
          lookupW m.projector_weights "model.mm_projector.2.weight",
          lookupW m.projector_weights "model.mm_projector.2.bias" with
    | some w0, some b0, some w2, some b2 =>
        some (viewChunks L
          (hsel.flatten.map (mmProject env.g w0.asMat b0.asVec w2.asMat b2.asVec)))
    | _, _, _, _ => none

/-- An `ImageItem`: an identifier for image bytes held in shared memory. -/
structure ImageItem where
  uuid : Nat
  deriving DecidableEq

/-- An element of the list passed to `encode`: a genuine `ImageItem`, or
any other Python value, carried as the renderings of `type(img)` and
`img` that the error message interpolates. -/
inductive InputItem
  | image (it : ImageItem)
  | other (tyName : String) (val : String)
  deriving DecidableEq

/-- How `encode` fails: the `isinstance` guard's exception (with its
message) or a framework error propagating out of `forward`. -/
inductive EncError
  | typeError (msg : String)
  | forwardError
  deriving DecidableEq

/-- The loop of `encode` over the input items, carrying the running
`valid_id` offset: per item collect the preprocessed tiles, the uuid and
the half-open range `[valid_id, valid_id + cur_num)`; a non-`ImageItem`
raises immediately. -/
def encodeItems (pixels : Nat → List Tile) :
    List InputItem → Nat → Except EncError (List (List Tile) × List Nat × List (Nat × Nat))
  | [], _ => Except.ok ([], [], [])
  | InputItem.image it :: rest, valid_id =>
      let t := pixels it.uuid
      let cur_num := t.length
      match encodeItems pixels rest (valid_id + cur_num) with
      | Except.error e => Except.error e
      | Except.ok (ts, us, vs) =>
          Except.ok (t :: ts, it.uuid :: us, (valid_id, valid_id + cur_num) :: vs)
  | InputItem.other ty v :: _, _ =>
      Except.error (EncError.typeError ("Unsupport input types: " ++ (ty ++ (" for " ++ v))))

/-- `encode`: run the item loop, return the `None` sentinel when no
tensors were collected, otherwise concatenate all tiles along the batch
dimension (`torch.cat(dim=0)`), run `forward` once, and return the
embeddings with the parallel uuid and range lists. -/
def encode (env : ExternEnv) (m : LlavaVisionModel) (images : List InputItem) :
    Except EncError (Option (Batch3 × List Nat × List (Nat × Nat))) :=
  match encodeItems env.pixels images 0 with
  | Except.error e => Except.error e
  | Except.ok (img_tensors, uuids, valid_ids) =>
    if img_tensors.length = 0 then Except.ok none
    else
      match forward env m img_tensors.flatten with
      | none => Except.error EncError.forwardError
      | some emb => Except.ok (some (emb, uuids, valid_ids))

/-- The half-open ranges the loop of `encode` produces from a start
offset and the per-image tile counts. -/
def rangesFrom (s : Nat) : List Nat → List (Nat × Nat)
  | [] => []
  | c :: cs => (s, s + c) :: rangesFrom (s + c) cs

/-- Tile count the preprocessor produces for one image. -/
def tileCount (env : ExternEnv) (i : ImageItem) : Nat :=
  (env.pixels i.uuid).length

/-- Total tiles of the first `i` images. -/
def sumTiles (env : ExternEnv) (imgs : List ImageItem) (i : Nat) : Nat :=
  ((imgs.take i).map (tileCount env)).sum

/-- First non-`ImageItem` of the input list, with its type and value
renderings. -/
def firstOther : List InputItem → Option (String × String)
  | [] => none
  | InputItem.image _ :: rest => firstOther rest
  | InputItem.other ty v :: _ => some (ty, v)

/-- In the ok case the item loop collects exactly one tensor per input
item. -/
lemma encodeItems_ok_length (p : Nat → List Tile) :
    ∀ (items : List InputItem) (s : Nat) ts us vs,
      encodeItems p items s = Except.ok (ts, us, vs) → ts.length = items.length := by
  intro items
  induction items with
  | nil =>
    intro s ts us vs h
    simp only [encodeItems, Except.ok.injEq, Prod.mk.injEq] at h
    obtain ⟨rfl, rfl, rfl⟩ := h
    rfl
  | cons head rest ih =>
    intro s ts us vs h
    cases head with
    | image it =>
      cases hrec : encodeItems p rest (s + (p it.uuid).length) with
      | error e =>
        simp only [encodeItems] at h
        rw [hrec] at h
        simp at h
      | ok out =>
        obtain ⟨ts1, us1, vs1⟩ := out
        simp only [encodeItems] at h
        rw [hrec] at h
        simp only [Except.ok.injEq, Prod.mk.injEq] at h
        obtain ⟨rfl, rfl, rfl⟩ := h
        simp [ih _ _ _ _ hrec]
    | other ty v =>
      simp only [encodeItems] at h
      simp at h

/-- C2: `encode` returns the `None` sentinel exactly on the empty input
list; every non-empty input yields either an error or the full triple. -/
theorem encode_none_iff_empty (env : ExternEnv) (m : LlavaVisionModel)
    (images : List InputItem) :
    encode env m images = Except.ok none ↔ images = [] := by
  constructor
  · intro h
    by_contra hne
    cases hrec : encodeItems env.pixels images 0 with
    | error e =>
      unfold encode at h
      rw [hrec] at h
      simp at h
    | ok out =>
      obtain ⟨ts, us, vs⟩ := out
      have hlen : ts.length = images.length := encodeItems_ok_length _ _ _ _ _ _ hrec
      have hlen0 : ts.length ≠ 0 := by
        rw [hlen]
        simpa using hne
      unfold encode at h
      rw [hrec] at h
      dsimp only at h
      rw [if_neg hlen0] at h
      cases hfwd : forward env m ts.flatten with
      | none => rw [hfwd] at h; simp at h
      | some emb => rw [hfwd] at h; simp at h
  · intro h
    subst h
    rfl

/-- C5: the loader dispatch is decided by presence of the
`"text_config"` key alone: packaged (HF) strategy exactly when the key
is in the config, loose (bin) strategy exactly otherwise, and the
selected strategy is the corresponding loading routine. -/
theorem chooseStrategy_text_config (cfg : Config) :
    (chooseStrategy cfg = Strategy.hf ↔ "text_config" ∈ cfg.keys) ∧
    (chooseStrategy cfg = Strategy.bin ↔ "text_config" ∉ cfg.keys) ∧
    (∀ disk : Disk, "text_config" ∈ cfg.keys →
      loadStrategyState cfg disk = load_hf_model cfg disk) ∧
    (∀ disk : Disk, "text_config" ∉ cfg.keys →
      loadStrategyState cfg disk = load_bin_model cfg disk) := by
  by_cases h : "text_config" ∈ cfg.keys <;>
    simp [chooseStrategy, loadStrategyState, h]

/-- C6: in `"patch"` (or the synonymous `"default"`) mode the feature
selection drops exactly the first token of every batch element along the
sequence dimension; in every other mode the tensor passes through
unchanged. -/
theorem selectFeatures_patch_drops_first (feat : String) (h : Batch3) :
    ((feat = "patch" ∨ feat = "default") →
      (selectFeatures feat h).length = h.length ∧
      ∀ (b : Nat) (row : Mat), h[b]? = some row →
        ∃ row2 : Mat, (selectFeatures feat h)[b]? = some row2 ∧
          row2.length = row.length - 1 ∧
          ∀ j : Nat, row2[j]? = row[j + 1]?) ∧
    (¬(feat = "patch" ∨ feat = "default") → selectFeatures feat h = h) := by
  constructor
  · intro hf
    simp only [selectFeatures, if_pos hf]
    refine ⟨List.length_map _ _, ?_⟩
    intro b row hb
    refine ⟨row.drop 1, ?_, ?_, ?_⟩
    · simp only [List.getElem?_map, hb, Option.map_some']
    · exact List.length_drop 1 row
    · intro j
      rw [List.getElem?_drop, Nat.add_comm]
  · intro hf
    simp [selectFeatures, hf]

/-- C7: a negative layer index into the hidden-state stack follows
standard Python negative-indexing semantics: for `-n ≤ i < 0` on a stack
of `n` layers, the layer at position `n + i` is selected (and that
position is in bounds). -/
theorem pyIndex_negIdx {α : Type} (l : List α) (i : Int)
    (h1 : -(l.length : Int) ≤ i) (h2 : i < 0) :
    pyIndex l i = l[((l.length : Int) + i).toNat]? ∧
    ((l.length : Int) + i).toNat < l.length := by
  simp only [pyIndex, if_pos h2]
  rw [if_neg (by omega)]
  constructor
  · congr 1
    omega
  · omega

/-- Witness for `pyIndex_negIdx` at the stack `[10, 20, 30]` and index
`-2`, selecting position `1`. -/
theorem pyIndex_negIdx_witness :
    pyIndex [10, 20, 30] (-2 : Int) =
      [10, 20, 30][((([10, 20, 30] : List Nat).length : Int) + (-2)).toNat]? ∧
    ((([10, 20, 30] : List Nat).length : Int) + (-2)).toNat <
      ([10, 20, 30] : List Nat).length :=
  pyIndex_negIdx [10, 20, 30] (-2) (by decide) (by decide)

/-- C9: `cuda()` puts the tower and every projector tensor on the
accelerator, and doing it twice is the same as doing it once. -/
theorem cuda_moves_all_idempotent (m : LlavaVisionModel) :
    m.cuda.tower_device = Device.cuda ∧
    (∀ kv ∈ m.cuda.projector_weights, kv.2.device = Device.cuda) ∧
    m.cuda.cuda = m.cuda := by
  refine ⟨rfl, ?_, ?_⟩
  · intro kv hkv
    simp only [LlavaVisionModel.cuda, List.mem_map] at hkv
    obtain ⟨kv0, -, rfl⟩ := hkv
    rfl
  · cases m with
    | mk sl sf pw td tdev trg dev =>
      simp only [LlavaVisionModel.cuda, List.map_map, LlavaVisionModel.mk.injEq,
        and_true, true_and]
      exact List.map_congr_left (fun kv _ => rfl)

/-- The loop raises the `isinstance` exception of the first offending
item, with type and value interpolated into the message. -/
lemma encodeItems_error_of_firstOther (p : Nat → List Tile) :
    ∀ (items : List InputItem) (s : Nat) (ty v : String),
      firstOther items = some (ty, v) →
      encodeItems p items s = Except.error (EncError.typeError
        ("Unsupport input types: " ++ (ty ++ (" for " ++ v)))) := by
  intro items
  induction items with
  | nil => intro s ty v h; simp [firstOther] at h
  | cons head rest ih =>
    intro s ty v h
    cases head with
    | image it =>
      simp only [firstOther] at h
      simp only [encodeItems, ih _ _ _ h]
    | other ty0 v0 =>
      simp only [firstOther, Option.some.injEq, Prod.mk.injEq] at h
      obtain ⟨rfl, rfl⟩ := h
      rfl

/-- Without an offending item the loop runs to completion. -/
lemma encodeItems_ok_of_firstOther_none (p : Nat → List Tile) :
    ∀ (items : List InputItem) (s : Nat),
      firstOther items = none →
      ∃ out, encodeItems p items s = Except.ok out := by
  intro items
  induction items with
  | nil => intro s _; exact ⟨([], [], []), rfl⟩
  | cons head rest ih =>
    intro s h
    cases head with
    | image it =>
      simp only [firstOther] at h
      obtain ⟨⟨ts, us, vs⟩, hout⟩ := ih (s + (p it.uuid).length) h
      refine ⟨(p it.uuid :: ts, it.uuid :: us,
        (s, s + (p it.uuid).length) :: vs), ?_⟩
      simp only [encodeItems, hout]
    | other ty0 v0 =>
      simp [firstOther] at h

/-- C3: `encode` raises the unsupported-input-type error exactly when
some input item is not an `ImageItem`, the raised message interpolates
the offending (first such) item's type name and value, and the error
carries no partial result. -/
theorem encode_type_error_iff (env : ExternEnv) (m : LlavaVisionModel)
    (images : List InputItem) :
    ((∃ msg, encode env m images = Except.error (EncError.typeError msg)) ↔
      firstOther images ≠ none) ∧
    (∀ ty v : String, firstOther images = some (ty, v) →
      encode env m images = Except.error (EncError.typeError
        ("Unsupport input types: " ++ (ty ++ (" for " ++ v)))) ∧
      (∃ a b : String,
        "Unsupport input types: " ++ (ty ++ (" for " ++ v)) = a ++ (ty ++ b)) ∧
      (∃ c : String,
        "Unsupport input types: " ++ (ty ++ (" for " ++ v)) = c ++ v)) := by
  have herr : ∀ ty v : String, firstOther images = some (ty, v) →
      encode env m images = Except.error (EncError.typeError
        ("Unsupport input types: " ++ (ty ++ (" for " ++ v)))) := by
    intro ty v h
    unfold encode
    rw [encodeItems_error_of_firstOther env.pixels images 0 ty v h]
  constructor
  · constructor
    · intro ⟨msg, hmsg⟩ hnone
      obtain ⟨⟨ts, us, vs⟩, hout⟩ :=
        encodeItems_ok_of_firstOther_none env.pixels images 0 hnone
      unfold encode at hmsg
      rw [hout] at hmsg
      dsimp only at hmsg
      by_cases hts : ts.length = 0
      · rw [if_pos hts] at hmsg
        simp at hmsg
      · rw [if_neg hts] at hmsg
        cases hfwd : forward env m ts.flatten with
        | none => rw [hfwd] at hmsg; simp at hmsg
        | some emb => rw [hfwd] at hmsg; simp at hmsg
    · intro hne
      obtain ⟨⟨ty, v⟩, h⟩ := Option.ne_none_iff_exists'.mp hne
      exact ⟨_, herr ty v h⟩
  · intro ty v h
    refine ⟨herr ty v h, ⟨"Unsupport input types: ", " for " ++ v, rfl⟩,
      ⟨"Unsupport input types: " ++ (ty ++ " for "), ?_⟩⟩
    rw [String.append_assoc, String.append_assoc]

/-- C4: `load_model` succeeds exactly when, after the chosen strategy
ran, all four canonical projector keys are present in the dict; a
missing key makes initialization fail, and after a success all four
keys exist in the loaded state. -/
theorem load_model_key_asserts (cfg : Config) (disk : Disk) :
    (exceptIsOk (load_model cfg disk) = true ↔
      fourKeysPresent (loadStrategyState cfg disk).projector_weights) ∧
    (∀ st : LlavaVisionModel, load_model cfg disk = Except.ok st →
      fourKeysPresent st.projector_weights) := by
  constructor
  · simp only [load_model, fourKeysPresent, projKeys, List.mem_cons,
      List.not_mem_nil, or_false, forall_eq_or_imp, forall_eq]
    split_ifs with h1 h2 h3 h4 <;>
      simp_all [exceptIsOk]
  · intro st h
    simp only [load_model] at h
    split_ifs at h with h1 h2 h3 h4
    simp only [Except.ok.injEq] at h
    subst h
    simp only [fourKeysPresent, projKeys, List.mem_cons, List.not_mem_nil,
      or_false, forall_eq_or_imp, forall_eq]
    simp only [Bool.not_eq_false] at h1 h2 h3 h4
    exact ⟨h1, h2, h3, h4⟩

/-- The empty dict satisfies the all-float16 invariant. -/
lemma allHalf_nil : AllHalf [] := by
  intro kv hkv
  simp at hkv

/-- Inserting a float16 tensor preserves the all-float16 invariant. -/
lemma allHalf_dictInsert (k : String) (v : STensor) (hv : v.dtype = DType.float16) :
    ∀ pw, AllHalf pw → AllHalf (dictInsert pw k v) := by
  intro pw
  induction pw with
  | nil =>
    intro _ kv hkv
    simp only [dictInsert, List.mem_singleton] at hkv
    subst hkv
    exact hv
  | cons kv0 pw ih =>
    intro hall kv hkv
    obtain ⟨k1, v1⟩ := kv0
    simp only [dictInsert] at hkv
    by_cases hk : k1 = k
    · rw [if_pos hk] at hkv
      rcases List.mem_cons.mp hkv with h | h
      · subst h; exact hv
      · exact hall kv (List.mem_cons_of_mem _ h)
    · rw [if_neg hk] at hkv
      rcases List.mem_cons.mp hkv with h | h
      · subst h; exact hall (k1, v1) (List.mem_cons_self _ _)
      · exact ih (fun x hx => hall x (List.mem_cons_of_mem _ hx)) kv h

/-- A fold whose step preserves the all-float16 invariant preserves it. -/
lemma allHalf_foldl {β : Type}
    (f : List (String × STensor) → β → List (String × STensor))
    (hf : ∀ pw b, AllHalf pw → AllHalf (f pw b)) :
    ∀ (l : List β) (pw), AllHalf pw → AllHalf (l.foldl f pw) := by
  intro l
  induction l with
  | nil => intro pw h; simpa using h
  | cons b l ih =>
    intro pw h
    simpa [List.foldl_cons] using ih (f pw b) (hf pw b h)

/-- The safetensors key scan step stores only halved tensors. -/
lemma allHalf_hfCollectKey (pw : List (String × STensor)) (k : String)
    (t : STensor) (h : AllHalf pw) : AllHalf (hfCollectKey pw k t) := by
  unfold hfCollectKey
  dsimp only
  split_ifs with h1 h2 <;>
    first
      | exact h
      | exact allHalf_dictInsert _ _ rfl _ h
      | exact allHalf_dictInsert _ _ rfl _ (allHalf_dictInsert _ _ rfl _ h)

/-- Both loading strategies leave only float16 tensors in the dict. -/
lemma allHalf_strategy (cfg : Config) (disk : Disk) :
    AllHalf (loadStrategyState cfg disk).projector_weights := by
  unfold loadStrategyState
  cases chooseStrategy cfg with
  | hf =>
    dsimp only [load_hf_model]
    refine allHalf_foldl _ ?_ _ _ allHalf_nil
    intro pw f hpw
    refine allHalf_foldl _ ?_ _ _ hpw
    intro pw2 kt h2
    exact allHalf_hfCollectKey pw2 kt.1 kt.2 h2
  | bin =>
    dsimp only [load_bin_model]
    refine allHalf_foldl _ ?_ _ _ allHalf_nil
    intro pw f hpw
    refine allHalf_foldl _ ?_ _ _ hpw
    intro pw2 kt h2
    split_ifs with hc
    · exact allHalf_dictInsert _ _ rfl pw2 h2
    · exact h2

/-- C10: after a successful `load_model`, every tensor in the projector
dict is float16, under either loading strategy. -/
theorem load_model_float16 (cfg : Config) (disk : Disk) (st : LlavaVisionModel)
    (h : load_model cfg disk = Except.ok st) : AllHalf st.projector_weights := by
  simp only [load_model] at h
  split_ifs at h
  simp only [Except.ok.injEq] at h
  subst h
  exact allHalf_strategy cfg disk

/-- On a list of genuine `ImageItem`s the loop collects the tiles, the
uuids in input order, and the contiguous ranges built from the tile
counts. -/
lemma encodeItems_map_image (p : Nat → List Tile) :
    ∀ (imgs : List ImageItem) (s : Nat),
      encodeItems p (imgs.map InputItem.image) s =
        Except.ok (imgs.map (fun i => p i.uuid), imgs.map ImageItem.uuid,
          rangesFrom s (imgs.map (fun i => (p i.uuid).length))) := by
  intro imgs
  induction imgs with
  | nil => intro s; rfl
  | cons a as ih =>
    intro s
    simp only [List.map_cons, encodeItems, ih, rangesFrom]

/-- `rangesFrom` yields one range per count. -/
lemma rangesFrom_length (cs : List Nat) : ∀ s, (rangesFrom s cs).length = cs.length := by
  induction cs with
  | nil => intro s; rfl
  | cons c cs ih => intro s; simp [rangesFrom, ih]

/-- The i-th range of `rangesFrom` starts at the running sum of the
earlier counts and spans exactly the i-th count. -/
lemma rangesFrom_getElem :
    ∀ (cs : List Nat) (s i : Nat) (h : i < cs.length),
      (rangesFrom s cs)[i]? =
        some (s + (cs.take i).sum, s + (cs.take i).sum + cs.get ⟨i, h⟩) := by
  intro cs
  induction cs with
  | nil => intro s i h; simp at h
  | cons c cs ih =>
    intro s i h
    cases i with
    | zero => simp [rangesFrom]
    | succ j =>
      have hj : j < cs.length := by simpa using h
      simp only [rangesFrom, List.getElem?_cons_succ, ih (s + c) j hj,
        List.take_succ_cons, List.sum_cons, List.get_cons_succ]
      refine congrArg some (Prod.ext ?_ ?_) <;> simp <;> omega

/-- C1: on a non-empty all-`ImageItem` input (with the forward pass
succeeding), `encode` returns the uuids in input order and contiguous
half-open ranges starting at 0, the i-th range spanning exactly the
tile count of the i-th image. -/
theorem encode_ranges_contiguous (env : ExternEnv) (m : LlavaVisionModel)
    (imgs : List ImageItem)
    (hne : imgs ≠ [])
    (hfwd : (forward env m ((imgs.map (fun i => env.pixels i.uuid)).flatten)).isSome
      = true) :
    ∃ emb rs,
      encode env m (imgs.map InputItem.image) =
        Except.ok (some (emb, imgs.map ImageItem.uuid, rs)) ∧
      rs.length = imgs.length ∧
      ∀ (i : Nat) (h : i < imgs.length),
        rs[i]? = some (sumTiles env imgs i,
          sumTiles env imgs i + tileCount env (imgs.get ⟨i, h⟩)) := by
  obtain ⟨emb, hemb⟩ := Option.isSome_iff_exists.mp hfwd
  refine ⟨emb, rangesFrom 0 (imgs.map (fun i => (env.pixels i.uuid).length)), ?_, ?_, ?_⟩
  · unfold encode
    rw [encodeItems_map_image env.pixels imgs 0]
    dsimp only
    rw [if_neg (by simpa using hne), hemb]
  · rw [rangesFrom_length, List.length_map]
  · intro i h
    have hm : i < (imgs.map (fun i => (env.pixels i.uuid).length)).length := by
      simpa using h
    rw [rangesFrom_getElem _ 0 i hm]
    refine congrArg some (Prod.ext ?_ ?_)
    · simp [sumTiles, tileCount, List.map_take, Function.comp]
      rfl
    · rw [List.get_map]
      simp [sumTiles, tileCount, List.map_take, Function.comp]
      rfl

/-- Feature selection never changes the batch dimension. -/
lemma selectFeatures_length (feat : String) (h : Batch3) :
    (selectFeatures feat h).length = h.length := by
  unfold selectFeatures
  split <;> simp

/-- With every chunk of positive length `L`, a list of chunks is at most
as long as its flattening. -/
lemma length_le_flatten_length (L : Nat) (hL : 0 < L) :
    ∀ ms : Batch3, (∀ mm ∈ ms, mm.length = L) → ms.length ≤ ms.flatten.length := by
  intro ms
  induction ms with
  | nil => simp
  | cons mm ms ih =>
    intro h
    have h1 : mm.length = L := h mm (by simp)
    have h2 := ih (fun x hx => h x (by simp [hx]))
    simp only [List.flatten_cons, List.length_append, List.length_cons]
    omega

/-- Regrouping the flattening of uniformly sized chunks recovers the
chunks, given enough fuel. -/
lemma viewChunksAux_flatten (L : Nat) (hL : 0 < L) :
    ∀ (ms : Batch3) (fuel : Nat), (∀ mm ∈ ms, mm.length = L) → ms.length ≤ fuel →
      viewChunksAux L fuel ms.flatten = ms := by
  intro ms
  induction ms with
  | nil =>
    intro fuel _ _
    cases fuel <;> simp [viewChunksAux]
  | cons mm ms ih =>
    intro fuel hlen hfuel
    cases fuel with
    | zero => simp at hfuel
    | succ f =>
      have hmm : mm.length = L := hlen mm (by simp)
      cases hmmc : mm with
      | nil =>
        rw [hmmc] at hmm
        simp at hmm
        omega
      | cons r rs =>
        subst hmmc
        show ((r :: rs) ++ ms.flatten).take L ::
            viewChunksAux L f (((r :: rs) ++ ms.flatten).drop L) = (r :: rs) :: ms
        have htake : ((r :: rs) ++ ms.flatten).take L = r :: rs := by
          rw [← hmm]
          exact List.take_left _ _
        have hdrop : ((r :: rs) ++ ms.flatten).drop L = ms.flatten := by
          rw [← hmm]
          exact List.drop_left _ _
        rw [htake, hdrop]
        refine congrArg _ (ih f (fun x hx => hlen x (by simp [hx])) ?_)
        simpa using hfuel

/-- `view(B, L, -1)` undoes the flattening of `B` uniform chunks of
positive length `L`. -/
lemma viewChunks_flatten (L : Nat) (hL : 0 < L) (ms : Batch3)
    (h : ∀ mm ∈ ms, mm.length = L) : viewChunks L ms.flatten = ms := by
  unfold viewChunks
  rw [if_neg (by omega)]
  exact viewChunksAux_flatten L hL ms ms.flatten.length h
    (length_le_flatten_length L hL ms h)

/-- A linear layer's output length is fixed by its weights alone. -/
lemma linearRow_length (w : Mat) (b : Vec) (x : Vec) :
    (linearRow w b x).length = min w.length b.length := by
  simp [linearRow]

/-- The projector's output length is fixed by the layer-2 weights. -/
lemma mmProject_length (g : Int → Int) (w0 : Mat) (b0 : Vec) (w2 : Mat) (b2 : Vec)
    (x : Vec) : (mmProject g w0 b0 w2 b2 x).length = min w2.length b2.length := by
  simp [mmProject, linearRow_length]

/-- Under successful layer selection and present projector keys, the
forward pass maps the projector over every token of every batch element
of the feature-selected layer. -/
lemma forward_eq_map (env : ExternEnv) (m : LlavaVisionModel) (x : List Tile)
    (h0 : Batch3) (w0 b0 w2 b2 : STensor) (L : Nat)
    (hidx : pyIndex (env.tower x) m.select_layer = some h0)
    (hw0 : lookupW m.projector_weights "model.mm_projector.0.weight" = some w0)
    (hb0 : lookupW m.projector_weights "model.mm_projector.0.bias" = some b0)
    (hw2 : lookupW m.projector_weights "model.mm_projector.2.weight" = some w2)
    (hb2 : lookupW m.projector_weights "model.mm_projector.2.bias" = some b2)
    (hL : 0 < L)
    (hrect : ∀ row ∈ selectFeatures m.select_feature h0, row.length = L)
    (hhead : ((selectFeatures m.select_feature h0).headD []).length = L) :
    forward env m x = some ((selectFeatures m.select_feature h0).map
      (fun mat => mat.map (mmProject env.g w0.asMat b0.asVec w2.asMat b2.asVec))) := by
  unfold forward
  rw [hidx]
  dsimp only
  rw [hw0, hb0, hw2, hb2]
  dsimp only
  rw [hhead]
  refine congrArg some ?_
  rw [List.map_flatten]
  exact viewChunks_flatten L hL _ (by
    intro mm hmm
    obtain ⟨mat, hmat, rfl⟩ := List.mem_map.mp hmm
    simp [hrect mat hmat])

/-- Every range produced by `rangesFrom` is well-formed and stays inside
`[s, s + total)`. -/
lemma rangesFrom_bounds :
    ∀ (cs : List Nat) (s : Nat) (r : Nat × Nat), r ∈ rangesFrom s cs →
      s ≤ r.1 ∧ r.1 ≤ r.2 ∧ r.2 ≤ s + cs.sum := by
  intro cs
  induction cs with
  | nil => intro s r h; simp [rangesFrom] at h
  | cons c cs ih =>
    intro s r h
    simp only [rangesFrom, List.mem_cons] at h
    rcases h with h | h
    · subst h
      simp only [List.sum_cons]
      omega
    · have := ih (s + c) r h
      simp only [List.sum_cons]
      omega

set_option maxHeartbeats 1000000 in
/-- C8 (amended): on a non-empty all-`ImageItem` input, with the tower
and projector shapes well-formed, the embedding batch is a rectangular
3-D tensor whose first dimension is the total tile count over all
images (the final range end) — not the image count — with a fixed token
count per tile, a fixed embedding dimension, and ranges that index into
the first dimension in parallel with the uuid list. -/
theorem encode_embedding_shape (env : ExternEnv) (m : LlavaVisionModel)
    (imgs : List ImageItem) (h0 : Batch3) (w0 b0 w2 b2 : STensor) (L : Nat)
    (hne : imgs ≠ [])
    (hidx : pyIndex (env.tower ((imgs.map (fun i => env.pixels i.uuid)).flatten))
      m.select_layer = some h0)
    (hw0 : lookupW m.projector_weights "model.mm_projector.0.weight" = some w0)
    (hb0 : lookupW m.projector_weights "model.mm_projector.0.bias" = some b0)
    (hw2 : lookupW m.projector_weights "model.mm_projector.2.weight" = some w2)
    (hb2 : lookupW m.projector_weights "model.mm_projector.2.bias" = some b2)
    (hbatch : h0.length = ((imgs.map (fun i => env.pixels i.uuid)).flatten).length)
    (hL : 0 < L)
    (hrect : ∀ row ∈ selectFeatures m.select_feature h0, row.length = L)
    (hhead : ((selectFeatures m.select_feature h0).headD []).length = L) :
    ∃ emb rs,
      encode env m (imgs.map InputItem.image) =
        Except.ok (some (emb, imgs.map ImageItem.uuid, rs)) ∧
      emb.length = sumTiles env imgs imgs.length ∧
      (∀ mat ∈ emb, mat.length = L) ∧
      (∀ mat ∈ emb, ∀ vec ∈ mat, vec.length = min w2.asMat.length b2.asVec.length) ∧
      rs.length = imgs.length ∧
      (∀ r ∈ rs, r.1 ≤ r.2 ∧ r.2 ≤ emb.length) := by
  have hfwd := forward_eq_map env m ((imgs.map (fun i => env.pixels i.uuid)).flatten)
    h0 w0 b0 w2 b2 L hidx hw0 hb0 hw2 hb2 hL hrect hhead
  refine ⟨(selectFeatures m.select_feature h0).map
      (fun mat => mat.map (mmProject env.g w0.asMat b0.asVec w2.asMat b2.asVec)),
    rangesFrom 0 (imgs.map (fun i => (env.pixels i.uuid).length)), ?_, ?_, ?_, ?_, ?_, ?_⟩
  · unfold encode
    rw [encodeItems_map_image env.pixels imgs 0]
    dsimp only
    rw [if_neg (by simpa using hne), hfwd]
  · rw [List.length_map, selectFeatures_length, hbatch, List.length_flatten]
    simp [sumTiles, List.take_length, List.map_map]
    rfl
  · intro mat hmat
    obtain ⟨mat0, hmat0, rfl⟩ := List.mem_map.mp hmat
    simp [hrect mat0 hmat0]
  · intro mat hmat vec hvec
    obtain ⟨mat0, hmat0, rfl⟩ := List.mem_map.mp hmat
    obtain ⟨t, ht, rfl⟩ := List.mem_map.mp hvec
    exact mmProject_length env.g w0.asMat b0.asVec w2.asMat b2.asVec t
  · rw [rangesFrom_length, List.length_map]
  · intro r hr
    have hb := rangesFrom_bounds _ 0 r hr
    have hsum : (imgs.map (fun i => (env.pixels i.uuid).length)).sum =
        ((selectFeatures m.select_feature h0).map
          (fun mat => mat.map (mmProject env.g w0.asMat b0.asVec w2.asMat b2.asVec))).length := by
      rw [List.length_map, selectFeatures_length, hbatch, List.length_flatten]
      simp [List.map_map]
      rfl
    rw [← hsum]
    omega

/-- A single preprocessed 1-channel 1×1 tile used in concrete runs. -/
def tileW : Tile := [[[0]]]

/-- A concrete external environment: uuid 1 decodes to one tile, every
other uuid to two tiles; the tower has one hidden layer giving every
batch element two tokens of feature width one; the GELU stand-in is the
identity. -/
def envW : ExternEnv :=
  { pixels := fun u => if u = 1 then [tileW] else [tileW, tileW]
    tower := fun x => [x.map (fun _ => [[7], [8]])]
    g := fun z => z }

/-- A concrete 1×1 projector weight. -/
def wOne : STensor := { data := [[1]], dtype := DType.float16, device := Device.cpu }

/-- A concrete projector bias of width one. -/
def bZero : STensor := { data := [[0]], dtype := DType.float16, device := Device.cpu }

/-- A concrete loaded adapter state with all four projector keys. -/
def mW : LlavaVisionModel :=
  { select_layer := 0
    select_feature := "patch"
    projector_weights :=
      [("model.mm_projector.0.weight", wOne), ("model.mm_projector.0.bias", bZero),
       ("model.mm_projector.2.weight", wOne), ("model.mm_projector.2.bias", bZero)]
    tower_dtype := DType.float16
    tower_device := Device.cpu
    tower_requires_grad := false
    device := Device.cpu }

/-- Two concrete input images: uuid 1 (one tile) and uuid 2 (two tiles). -/
def imgsW : List ImageItem := [{ uuid := 1 }, { uuid := 2 }]

/-- The hidden layer `envW.tower` produces on the three tiles of `imgsW`. -/
def h0W : Batch3 := [[[7], [8]], [[7], [8]], [[7], [8]]]

/-- Witness for `encode_ranges_contiguous`: two images decoding to 1 and
2 tiles give uuids `[1, 2]` and the contiguous ranges `[0,1)` and
`[1,3)`. -/
theorem encode_ranges_contiguous_witness :
    ∃ emb rs,
      encode envW mW (imgsW.map InputItem.image) =
        Except.ok (some (emb, imgsW.map ImageItem.uuid, rs)) ∧
      rs.length = imgsW.length ∧
      ∀ (i : Nat) (h : i < imgsW.length),
        rs[i]? = some (sumTiles envW imgsW i,
          sumTiles envW imgsW i + tileCount envW (imgsW.get ⟨i, h⟩)) :=
  encode_ranges_contiguous envW mW imgsW (by decide) (by decide)

/-- Witness for `encode_embedding_shape` on the concrete environment:
three tiles from two images, one token per tile, embedding width one. -/
theorem encode_embedding_shape_witness :
    ∃ emb rs,
      encode envW mW (imgsW.map InputItem.image) =
        Except.ok (some (emb, imgsW.map ImageItem.uuid, rs)) ∧
      emb.length = sumTiles envW imgsW imgsW.length ∧
      (∀ mat ∈ emb, mat.length = 1) ∧
      (∀ mat ∈ emb, ∀ vec ∈ mat, vec.length = min wOne.asMat.length bZero.asVec.length) ∧
      rs.length = imgsW.length ∧
      (∀ r ∈ rs, r.1 ≤ r.2 ∧ r.2 ≤ emb.length) :=
  encode_embedding_shape envW mW imgsW h0W wOne bZero wOne bZero 1
    (by decide) (by decide) (by decide) (by decide) (by decide) (by decide)
    (by decide) (by decide) (by decide) (by decide)

/-- C8 counterexample to the claim's stated first dimension: with two
input images whose preprocessor yields 1 and 2 tiles, the embedding
batch has first dimension 3 (the total tile count and final range end),
not 2 (the image count). -/
theorem encode_first_dim_not_image_count :
    encode envW mW (imgsW.map InputItem.image) =
      Except.ok (some ([[[8]], [[8]], [[8]]], [1, 2], [(0, 1), (1, 3)])) ∧
    ([[[8]], [[8]], [[8]]] : Batch3).length = 3 ∧ imgsW.length = 2 :=
  ⟨rfl, rfl, rfl⟩

/-- A raw float32 checkpoint tensor for the concrete load. -/
def tOne : STensor := { data := [[1]], dtype := DType.float32, device := Device.cpu }

/-- A concrete loose-checkpoint config (no `"text_config"` key). -/
def cfgW : Config :=
  { keys := ["mm_vision_tower"]
    mm_vision_select_layer := none
    mm_vision_select_feature := none
    vision_feature_layer := -2
    vision_feature_select_strategy := "default" }

/-- A concrete weight directory with one `.bin` file holding the four
projector tensors in float32. -/
def diskW : Disk :=
  { files := [{ name := "pytorch_model.bin"
                entries := [("model.mm_projector.0.weight", tOne),
                            ("model.mm_projector.0.bias", tOne),
                            ("model.mm_projector.2.weight", tOne),
                            ("model.mm_projector.2.bias", tOne)] }] }

/-- The adapter state `load_model cfgW diskW` produces. -/
def stW : LlavaVisionModel :=
  { select_layer := -2
    select_feature := "patch"
    projector_weights :=
      [("model.mm_projector.0.weight", tOne.half),
       ("model.mm_projector.0.bias", tOne.half),
       ("model.mm_projector.2.weight", tOne.half),
       ("model.mm_projector.2.bias", tOne.half)]
    tower_dtype := DType.float16
    tower_device := Device.cpu
    tower_requires_grad := false
    device := Device.cpu }

/-- Witness for `load_model_float16`: the concrete loose-checkpoint load
succeeds and stores only float16 tensors. -/
theorem load_model_float16_witness : AllHalf stW.projector_weights :=
  load_model_float16 cfgW diskW stW rfl
